import Mathlib

/-!
Shallow embedding of the core of the opencrow bot (Go) for verification.

Strings whose characters matter (replies, task-file contents, message text)
are modelled as `List Char`, mirroring Go strings viewed as rune sequences;
fields only compared for equality (roles, event types) stay `String`.
Filesystem reads, subprocess I/O and prompt outcomes are passed in as
explicit parameters, turning each stateful Go function into a pure state
transition.
-/

/-! ## Heartbeat reply suppression (heartbeat.go)

`containsHeartbeatOK` strips the sentinel token (with optional bold
markers) via `strings.ReplaceAll` and counts the remaining non-whitespace
characters, bailing out at 50. `removeAllGo` embeds `strings.ReplaceAll`
with the empty replacement: scan left to right, on a pattern match skip
the whole pattern, otherwise keep one character; the fuel argument (always
instantiated with the list length) makes the recursion structural.
-/

/-- Whitespace per Go's `unicode.IsSpace` (the Unicode White_Space property). -/
def isGoSpace (c : Char) : Bool :=
  c = ' ' || c = '\t' || c = '\n' || c = '\u000B' || c = '\u000C' || c = '\r' ||
  c = '\u0085' || c = ' ' || c = ' ' ||
  (0x2000 ≤ c.toNat && c.toNat ≤ 0x200A) ||
  c = ' ' || c = ' ' || c = ' ' || c = ' ' || c = '　'

/-- Boolean prefix test agrees with the prefix relation. -/
theorem isPrefixOf_eq_true (p l : List Char) : p.isPrefixOf l = true ↔ p <+: l :=
  List.isPrefixOf_iff_prefix

/-- Fuelled scan of `strings.ReplaceAll(s, pat, "")`. -/
def removeAllGo (pat : List Char) : Nat → List Char → List Char
  | _, [] => []
  | 0, s => s
  | fuel + 1, c :: rest =>
    if pat.isPrefixOf (c :: rest) && !pat.isEmpty then
      removeAllGo pat fuel (rest.drop (pat.length - 1))
    else
      c :: removeAllGo pat fuel rest

/-- Embedding of `strings.ReplaceAll(s, pat, "")`. -/
def removeAll (pat s : List Char) : List Char :=
  removeAllGo pat s.length s

/-- The sentinel token of heartbeat.go. -/
def heartbeatToken : List Char := "HEARTBEAT_OK".toList

/-- The sentinel token wrapped in markdown bold markers. -/
def heartbeatTokenBold : List Char := "**HEARTBEAT_OK**".toList

/-- Lines 276-279 of heartbeat.go: strip `**HEARTBEAT_OK**`, then `HEARTBEAT_OK`. -/
def cleanedResponse (response : List Char) : List Char :=
  removeAll heartbeatToken (removeAll heartbeatTokenBold response)

/-- Counting loop of `containsHeartbeatOK`: count non-whitespace runes,
returning `false` as soon as the count reaches 50, `true` at the end. -/
def countLoop : List Char → Nat → Bool
  | [], _ => true
  | c :: rest, count =>
    if isGoSpace c then countLoop rest count
    else if count + 1 ≥ 50 then false
    else countLoop rest (count + 1)

/-- Embedding of `containsHeartbeatOK` (heartbeat.go lines 271-295). -/
def containsHeartbeatOK (response : List Char) : Bool :=
  if response = [] then false
  else countLoop (cleanedResponse response) 0

/-- Number of non-whitespace characters of a reply. -/
def nonWS (s : List Char) : Nat := (s.filter (fun c => !isGoSpace c)).length

/-- Reply delivery decision of `HeartbeatScheduler.tick` (heartbeat.go lines
192-204): suppress on `containsHeartbeatOK`, suppress the empty reply,
otherwise hand the reply to `sendReply`. -/
def HeartbeatScheduler.deliverDecision (reply : List Char) : Option (List Char) :=
  if containsHeartbeatOK reply then none
  else if reply = [] then none
  else some reply

/-- Reply delivery decision of `TriggerPipeManager.processTrigger`
(trigger_pipe.go lines 203-213), identical in structure to the scheduler's. -/
def TriggerPipeManager.deliverDecision (reply : List Char) : Option (List Char) :=
  if containsHeartbeatOK reply then none
  else if reply = [] then none
  else some reply

theorem removeAllGo_fuel (pat : List Char) :
    ∀ f₁ f₂ s, s.length ≤ f₁ → s.length ≤ f₂ →
      removeAllGo pat f₁ s = removeAllGo pat f₂ s := by
  intro f₁
  induction f₁ with
  | zero =>
    intro f₂ s h1 _
    cases s with
    | nil => cases f₂ <;> rfl
    | cons c rest => simp at h1
  | succ a ih =>
    intro f₂ s h1 h2
    cases s with
    | nil => cases f₂ <;> rfl
    | cons c rest =>
      cases f₂ with
      | zero => simp at h2
      | succ b =>
        simp only [removeAllGo]
        by_cases hp : (pat.isPrefixOf (c :: rest) && !pat.isEmpty) = true
        · rw [hp]
          simp only [if_true]
          apply ih
          · have := List.length_drop (pat.length - 1) rest
            simp only [List.length_cons] at h1
            omega
          · simp only [List.length_cons] at h2
            have := List.length_drop (pat.length - 1) rest
            omega
        · rw [Bool.not_eq_true] at hp
          rw [hp]
          simp only [Bool.false_eq_true, if_false, List.cons.injEq, true_and]
          apply ih
          · simp only [List.length_cons] at h1; omega
          · simp only [List.length_cons] at h2; omega

theorem removeAll_of_not_occurs (pat s : List Char)
    (h : ¬ pat <:+: s) : removeAll pat s = s := by
  unfold removeAll
  induction s with
  | nil => rfl
  | cons c rest ih =>
    simp only [List.length_cons, removeAllGo]
    have hpre : pat.isPrefixOf (c :: rest) = false := by
      rw [Bool.eq_false_iff]
      intro hb
      exact h (List.IsPrefix.isInfix ((isPrefixOf_eq_true _ _).mp hb))
    rw [hpre]
    simp only [Bool.false_and, Bool.false_eq_true, if_false, List.cons.injEq, true_and]
    have hrest : ¬ pat <:+: rest := fun hi => h (hi.trans (List.suffix_cons c rest).isInfix)
    exact ih hrest

theorem removeAll_append_self (pat s : List Char) (hne : pat ≠ []) :
    removeAll pat (pat ++ s) = removeAll pat s := by
  cases pat with
  | nil => exact absurd rfl hne
  | cons p pt =>
    unfold removeAll
    simp only [List.cons_append, List.length_cons, List.length_append, removeAllGo]
    simp only [List.append_eq]
    have hpre : (p :: pt).isPrefixOf (p :: (pt ++ s)) = true := by
      rw [isPrefixOf_eq_true _ _]
      exact ⟨s, by simp⟩
    rw [hpre]
    simp only [List.isEmpty_cons, Bool.not_false, Bool.and_true, if_true]
    rw [show pt.length + 1 - 1 = pt.length from rfl, List.drop_left]
    apply removeAllGo_fuel
    · simp only [List.length_append]; omega
    · omega

theorem countLoop_eq (s : List Char) : ∀ k, k < 50 →
    (countLoop s k = true ↔ k + nonWS s < 50) := by
  induction s with
  | nil =>
    intro k hk
    simpa [countLoop, nonWS] using hk
  | cons c rest ih =>
    intro k hk
    by_cases hc : isGoSpace c = true
    · have h1 : countLoop (c :: rest) k = countLoop rest k := by
        simp [countLoop, hc]
      have h2 : nonWS (c :: rest) = nonWS rest := by
        simp [nonWS, hc]
      rw [h1, h2, ih k hk]
    · have h2 : nonWS (c :: rest) = nonWS rest + 1 := by
        simp [nonWS, hc]
      by_cases hb : 50 ≤ k + 1
      · have h1 : countLoop (c :: rest) k = false := by
          simp [countLoop, hc, hb]
        rw [h1, h2]
        simp only [Bool.false_eq_true, false_iff]
        omega
      · have h1 : countLoop (c :: rest) k = countLoop rest (k + 1) := by
          simp [countLoop, hc, hb]
        rw [h1, h2, ih (k + 1) (by omega)]
        omega

/-- The characterization behind the suppression predicate: a non-empty reply
is flagged exactly when fewer than 50 non-whitespace characters remain after
stripping the sentinel token. -/
theorem containsHeartbeatOK_iff (r : List Char) (hr : r ≠ []) :
    containsHeartbeatOK r = true ↔ nonWS (cleanedResponse r) < 50 := by
  unfold containsHeartbeatOK
  rw [if_neg hr]
  simpa using countLoop_eq (cleanedResponse r) 0 (by omega)

theorem cleanedResponse_of_token_free (r : List Char)
    (h : ¬ heartbeatToken <:+: r) : cleanedResponse r = r := by
  have hbold : ¬ heartbeatTokenBold <:+: r := by
    intro hb
    exact h ((by decide : heartbeatToken <:+: heartbeatTokenBold).trans hb)
  unfold cleanedResponse
  rw [removeAll_of_not_occurs _ _ hbold, removeAll_of_not_occurs _ _ h]

/-! ## Task-file emptiness heuristic (heartbeat.go lines 229-266) -/

/-- Embedding of `strings.SplitSeq(content, "\n")`. -/
def splitLines : List Char → List (List Char)
  | [] => [[]]
  | c :: rest =>
    if c = '\n' then [] :: splitLines rest
    else
      match splitLines rest with
      | l :: ls => (c :: l) :: ls
      | [] => [[c]]

/-- Embedding of `strings.TrimSpace`. -/
def trimSpace (s : List Char) : List Char :=
  ((s.dropWhile isGoSpace).reverse.dropWhile isGoSpace).reverse

/-- Embedding of `isMarkdownHeader`: the line starts with `#`. -/
def isMarkdownHeader (line : List Char) : Bool :=
  ['#'].isPrefixOf line

/-- Embedding of `isEmptyListItem`: a bare bullet marker, or a bullet marker
followed by whitespace only. The disjunction of the source's first test is
rendered as nested conditionals. -/
def isEmptyListItem (line : List Char) : Bool :=
  if line = ['-'] then true
  else if line = ['*'] then true
  else if line = ['+'] then true
  else if ['-', ' '].isPrefixOf line then (trimSpace (line.drop 2)).isEmpty
  else if ['*', ' '].isPrefixOf line then (trimSpace (line.drop 2)).isEmpty
  else if ['+', ' '].isPrefixOf line then (trimSpace (line.drop 2)).isEmpty
  else false

/-- The per-line test of the loop body of `isEffectivelyEmpty`. -/
def structuralLine (line : List Char) : Bool :=
  let t := trimSpace line
  t.isEmpty || isMarkdownHeader t || isEmptyListItem t

/-- The line loop of `isEffectivelyEmpty`: stop with `false` at the first
non-structural line. -/
def emptyLoop : List (List Char) → Bool
  | [] => true
  | line :: rest => if structuralLine line then emptyLoop rest else false

/-- Embedding of `isEffectivelyEmpty` (heartbeat.go lines 229-246). -/
def isEffectivelyEmpty (content : List Char) : Bool :=
  if content = [] then true
  else emptyLoop (splitLines content)

/-- The emptiness criterion in the words of the specification: after trimming,
the line is blank, a markdown header, or a bullet marker that is bare or
followed only by whitespace. -/
def specStructuralLine (line : List Char) : Prop :=
  trimSpace line = [] ∨
  (∃ r, trimSpace line = '#' :: r) ∨
  trimSpace line = ['-'] ∨ trimSpace line = ['*'] ∨ trimSpace line = ['+'] ∨
  (∃ m r, (m = '-' ∨ m = '*' ∨ m = '+') ∧ trimSpace line = m :: ' ' :: r ∧
    ∀ c ∈ r, isGoSpace c = true)

theorem trimSpace_eq_nil_iff (s : List Char) :
    trimSpace s = [] ↔ ∀ c ∈ s, isGoSpace c = true := by
  unfold trimSpace
  rw [List.reverse_eq_nil_iff, List.dropWhile_eq_nil_iff]
  constructor
  · intro h c hc
    rcases List.mem_append.mp ((List.takeWhile_append_dropWhile isGoSpace s) ▸ hc) with h1 | h1
    · exact List.mem_takeWhile_imp h1
    · exact h c (List.mem_reverse.mpr h1)
  · intro h c hc
    exact h c ((List.dropWhile_sublist isGoSpace).subset (List.mem_reverse.mp hc))

theorem isPrefixOf_pair_iff (a b : Char) (l : List Char) :
    [a, b].isPrefixOf l = true ↔ ∃ r, l = a :: b :: r := by
  rw [isPrefixOf_eq_true _ _]
  constructor
  · rintro ⟨u, hu⟩
    exact ⟨u, hu.symm⟩
  · rintro ⟨r, hr⟩
    exact ⟨r, hr.symm⟩

theorem isMarkdownHeader_iff (t : List Char) :
    isMarkdownHeader t = true ↔ ∃ r, t = '#' :: r := by
  unfold isMarkdownHeader
  rw [isPrefixOf_eq_true _ _]
  constructor
  · rintro ⟨u, hu⟩
    exact ⟨u, hu.symm⟩
  · rintro ⟨r, hr⟩
    exact ⟨r, hr.symm⟩

theorem isEmptyListItem_iff (t : List Char) :
    isEmptyListItem t = true ↔
      (t = ['-'] ∨ t = ['*'] ∨ t = ['+'] ∨
       ∃ m r, (m = '-' ∨ m = '*' ∨ m = '+') ∧ t = m :: ' ' :: r ∧
         ∀ c ∈ r, isGoSpace c = true) := by
  unfold isEmptyListItem
  by_cases h1 : t = ['-']
  · simp [h1]
  by_cases h2 : t = ['*']
  · simp [h2]
  by_cases h3 : t = ['+']
  · simp [h3]
  rw [if_neg h1, if_neg h2, if_neg h3]
  by_cases hd : ['-', ' '].isPrefixOf t = true
  · rcases (isPrefixOf_pair_iff _ _ _).mp hd with ⟨r, hr⟩
    rw [if_pos hd]
    subst hr
    rw [List.isEmpty_iff, trimSpace_eq_nil_iff]
    constructor
    · intro hws
      exact Or.inr (Or.inr (Or.inr ⟨'-', r, Or.inl rfl, rfl, hws⟩))
    · rintro (h | h | h | ⟨m, r2, hm, heq, hws⟩)
      · exact absurd h h1
      · exact absurd h h2
      · exact absurd h h3
      · rw [show ('-' :: ' ' :: r).drop 2 = r from rfl]
        injection heq with hma htl
        injection htl with hsp htl2
        subst htl2
        exact hws
  rw [if_neg hd]
  by_cases hs : ['*', ' '].isPrefixOf t = true
  · rcases (isPrefixOf_pair_iff _ _ _).mp hs with ⟨r, hr⟩
    rw [if_pos hs]
    subst hr
    rw [List.isEmpty_iff, trimSpace_eq_nil_iff]
    constructor
    · intro hws
      exact Or.inr (Or.inr (Or.inr ⟨'*', r, Or.inr (Or.inl rfl), rfl, hws⟩))
    · rintro (h | h | h | ⟨m, r2, hm, heq, hws⟩)
      · exact absurd h h1
      · exact absurd h h2
      · exact absurd h h3
      · rw [show ('*' :: ' ' :: r).drop 2 = r from rfl]
        injection heq with hma htl
        injection htl with hsp htl2
        subst htl2
        exact hws
  rw [if_neg hs]
  by_cases hp : ['+', ' '].isPrefixOf t = true
  · rcases (isPrefixOf_pair_iff _ _ _).mp hp with ⟨r, hr⟩
    rw [if_pos hp]
    subst hr
    rw [List.isEmpty_iff, trimSpace_eq_nil_iff]
    constructor
    · intro hws
      exact Or.inr (Or.inr (Or.inr ⟨'+', r, Or.inr (Or.inr rfl), rfl, hws⟩))
    · rintro (h | h | h | ⟨m, r2, hm, heq, hws⟩)
      · exact absurd h h1
      · exact absurd h h2
      · exact absurd h h3
      · rw [show ('+' :: ' ' :: r).drop 2 = r from rfl]
        injection heq with hma htl
        injection htl with hsp htl2
        subst htl2
        exact hws
  rw [if_neg hp]
  simp only [Bool.false_eq_true, false_iff]
  rintro (h | h | h | ⟨m, r, hm, heq, hws⟩)
  · exact h1 h
  · exact h2 h
  · exact h3 h
  · rcases hm with rfl | rfl | rfl
    · exact absurd ((isPrefixOf_pair_iff '-' ' ' t).mpr ⟨r, heq⟩) hd
    · exact absurd ((isPrefixOf_pair_iff '*' ' ' t).mpr ⟨r, heq⟩) hs
    · exact absurd ((isPrefixOf_pair_iff '+' ' ' t).mpr ⟨r, heq⟩) hp

theorem structuralLine_iff_spec (line : List Char) :
    structuralLine line = true ↔ specStructuralLine line := by
  unfold structuralLine specStructuralLine
  simp only [Bool.or_eq_true, List.isEmpty_iff, isMarkdownHeader_iff, isEmptyListItem_iff,
    or_assoc]

theorem emptyLoop_iff (ls : List (List Char)) :
    emptyLoop ls = true ↔ ∀ l ∈ ls, structuralLine l = true := by
  induction ls with
  | nil => simp [emptyLoop]
  | cons l rest ih =>
    unfold emptyLoop
    by_cases hl : structuralLine l = true
    · rw [if_pos hl, ih]
      simp [hl]
    · rw [if_neg hl]
      simp only [Bool.false_eq_true, false_iff]
      intro hall
      exact hl (hall l (List.mem_cons_self l rest))

/-! ## Transcript reply extraction (pi.go lines 368-420)

Message content is a tagged variant: a JSON string, an array of typed
content blocks, or content that parses as neither (skipped with a log in
the source). Text payloads are `List Char`.
-/

/-- Embedding of `contentBlock` (pi.go lines 160-163). -/
structure contentBlock where
  type : String
  text : List Char
deriving DecidableEq

/-- Content of an `agentMessage`: what `json.RawMessage` parses to. -/
inductive MsgContent where
  | str (s : List Char)
  | blocks (bs : List contentBlock)
  | malformed
deriving DecidableEq

/-- Embedding of `agentMessage` (pi.go lines 154-157). -/
structure agentMessage where
  role : String
  content : MsgContent
deriving DecidableEq

/-- The parts loop of `extractLastAssistantText`: keep the text of blocks of
type `text` with non-empty text, in order. -/
def textParts : List contentBlock → List (List Char)
  | [] => []
  | b :: rest =>
    if b.type == "text" && !b.text.isEmpty then b.text :: textParts rest
    else textParts rest

/-- Embedding of `strings.Join(parts, "\n")`. -/
def joinParts : List (List Char) → List Char
  | [] => []
  | [p] => p
  | p :: rest => p ++ '\n' :: joinParts rest

/-- The backward walk of `extractLastAssistantText`, expressed as a forward
walk over the reversed message list. -/
def extractLoop : List agentMessage → List Char
  | [] => []
  | m :: rest =>
    if m.role != "assistant" then extractLoop rest
    else
      match m.content with
      | .str s => if !s.isEmpty then s else extractLoop rest
      | .malformed => extractLoop rest
      | .blocks bs =>
        let parts := textParts bs
        if !parts.isEmpty then joinParts parts else extractLoop rest

/-- Embedding of `extractLastAssistantText` (pi.go lines 370-420). -/
def extractLastAssistantText (ms : List agentMessage) : List Char :=
  extractLoop ms.reverse

/-- Modelled from the spec's words: textual content of one message, with the
text-typed blocks concatenated in order (no separator). -/
def specMessageText (m : agentMessage) : List Char :=
  match m.content with
  | .str s => s
  | .blocks bs => ((bs.filter (fun b => b.type == "text")).map contentBlock.text).flatten
  | .malformed => []

/-- Modelled from the spec's words: scan from the end backward for the most
recent assistant entry with non-empty textual content. -/
def specExtractLoop : List agentMessage → List Char
  | [] => []
  | m :: rest =>
    if m.role == "assistant" && !(specMessageText m).isEmpty then specMessageText m
    else specExtractLoop rest

/-- Modelled from the spec's words: reply extraction with strict in-order
concatenation of the text-typed blocks. -/
def specExtractLastAssistantText (ms : List agentMessage) : List Char :=
  specExtractLoop ms.reverse

/-- Amended per-message text: non-empty text-typed blocks joined in order
with a newline separator between consecutive blocks. -/
def amendedMessageText (m : agentMessage) : List Char :=
  match m.content with
  | .str s => s
  | .blocks bs => joinParts (textParts bs)
  | .malformed => []

/-- Amended reply extraction: most recent assistant entry with non-empty
amended text. -/
def amendedExtractLoop : List agentMessage → List Char
  | [] => []
  | m :: rest =>
    if m.role == "assistant" && !(amendedMessageText m).isEmpty then amendedMessageText m
    else amendedExtractLoop rest

/-- Amended reply extraction over a transcript. -/
def amendedExtractLastAssistantText (ms : List agentMessage) : List Char :=
  amendedExtractLoop ms.reverse

theorem textParts_nonempty_mem (bs : List contentBlock) :
    ∀ p ∈ textParts bs, p ≠ [] := by
  induction bs with
  | nil => intro p hp; simp [textParts] at hp
  | cons b rest ih =>
    intro p hp
    unfold textParts at hp
    by_cases hb : (b.type == "text" && !b.text.isEmpty) = true
    · rw [if_pos hb] at hp
      rcases List.mem_cons.mp hp with rfl | hp
      · simp only [Bool.and_eq_true, Bool.not_eq_true', List.isEmpty_eq_false] at hb
        exact hb.2
      · exact ih p hp
    · rw [if_neg hb] at hp
      exact ih p hp

theorem joinParts_ne_nil (parts : List (List Char))
    (hne : parts ≠ []) (hmem : ∀ p ∈ parts, p ≠ []) : joinParts parts ≠ [] := by
  match parts with
  | [] => exact absurd rfl hne
  | [p] => exact hmem p (by simp)
  | p :: q :: rest =>
    unfold joinParts
    intro h
    rcases List.append_eq_nil.mp h with ⟨h1, h2⟩
    exact List.cons_ne_nil _ _ h2

theorem extractLoop_eq_amended (ms : List agentMessage) :
    extractLoop ms = amendedExtractLoop ms := by
  induction ms with
  | nil => rfl
  | cons m rest ih =>
    unfold extractLoop amendedExtractLoop
    by_cases hrole : m.role = "assistant"
    · have hr1 : (m.role != "assistant") = false := by simp [hrole]
      have hr2 : (m.role == "assistant") = true := by simp [hrole]
      rw [hr1, hr2]
      simp only [Bool.false_eq_true, if_false, Bool.true_and]
      match hc : m.content with
      | .str s =>
        simp only [amendedMessageText, hc]
        by_cases hs : s.isEmpty = true
        · rw [List.isEmpty_iff] at hs
          subst hs
          simpa using ih
        · have : s ≠ [] := by simpa [List.isEmpty_iff] using hs
          simp [hs, this, List.isEmpty_eq_false.mpr this]
      | .malformed =>
        simpa [amendedMessageText, hc] using ih
      | .blocks bs =>
        simp only [amendedMessageText, hc]
        by_cases hp : (textParts bs).isEmpty = true
        · rw [List.isEmpty_iff] at hp
          rw [hp]
          simpa [joinParts] using ih
        · have hne : textParts bs ≠ [] := by simpa [List.isEmpty_iff] using hp
          have hjoin : joinParts (textParts bs) ≠ [] :=
            joinParts_ne_nil _ hne (textParts_nonempty_mem bs)
          simp [hp, List.isEmpty_eq_false.mpr hne, List.isEmpty_eq_false.mpr hjoin]
    · have hr1 : (m.role != "assistant") = true := by simp [hrole]
      have hr2 : (m.role == "assistant") = false := by simp [hrole]
      rw [hr1, hr2]
      simpa using ih

/-! ## The event read loop (pi.go lines 296-340)

A line of the subprocess's standard output is empty, malformed JSON, or a
parsed event; the stream finishes either at end-of-file or with a scanner
error. `readUntilAgentEnd` consumes lines in order; the side effects of the
`extension_ui_request` arm (writing an auto-cancel response) do not touch
the returned value and are not modelled.
-/

/-- Embedding of `rpcEvent` (pi.go lines 139-151), with `messages` already
parsed into the transcript model. -/
structure rpcEvent where
  type : String
  command : String
  success : Option Bool
  error : String
  messages : List agentMessage
  method : String
deriving DecidableEq

/-- One line read from the subprocess's standard output. -/
inductive PiLine where
  | empty
  | malformed
  | event (e : rpcEvent)
deriving DecidableEq

/-- How the stream of lines ends when no terminal event arrived. -/
inductive StreamEnd where
  | eof
  | ioError (msg : String)
deriving DecidableEq

/-- The error message for a rejected command (pi.go line 330). -/
def rejectionError (e : rpcEvent) : String :=
  "pi rejected command \"" ++ e.command ++ "\": " ++ e.error

/-- Embedding of `PiProcess.readUntilAgentEnd` (pi.go lines 297-340). -/
def readUntilAgentEnd : List PiLine → StreamEnd → Except String (List Char)
  | [], .ioError m => .error ("reading pi stdout: " ++ m)
  | [], .eof => .error "pi process closed stdout (EOF)"
  | .empty :: rest, fin => readUntilAgentEnd rest fin
  | .malformed :: rest, fin => readUntilAgentEnd rest fin
  | .event e :: rest, fin =>
    if e.type == "agent_end" then .ok (extractLastAssistantText e.messages)
    else if e.type == "extension_ui_request" then readUntilAgentEnd rest fin
    else if e.type == "response" then
      match e.success with
      | some false => .error (rejectionError e)
      | _ => readUntilAgentEnd rest fin
    else readUntilAgentEnd rest fin

/-- A line carrying the terminal `agent_end` event. -/
def PiLine.isTerminal : PiLine → Bool
  | .event e => e.type == "agent_end"
  | _ => false

/-- A line carrying a command-result event that signals rejection. -/
def PiLine.isRejection : PiLine → Bool
  | .event e => e.type == "response" && e.success == some false
  | _ => false

/-- Lines the loop passes over without returning: empty lines, malformed
lines, and any event that is neither terminal nor a rejection. -/
def PiLine.isSkippable (l : PiLine) : Bool :=
  ! l.isTerminal && ! l.isRejection

theorem readUntilAgentEnd_skip (l : PiLine) (rest : List PiLine) (fin : StreamEnd)
    (h : l.isSkippable = true) :
    readUntilAgentEnd (l :: rest) fin = readUntilAgentEnd rest fin := by
  match l with
  | .empty => rfl
  | .malformed => rfl
  | .event e =>
    simp only [PiLine.isSkippable, PiLine.isTerminal, PiLine.isRejection, Bool.and_eq_true,
      Bool.not_eq_true', Bool.and_eq_false_iff] at h
    obtain ⟨hterm, hrej⟩ := h
    conv_lhs => rw [readUntilAgentEnd]
    rw [hterm]
    simp only [Bool.false_eq_true, if_false]
    by_cases hui : (e.type == "extension_ui_request") = true
    · rw [hui]
      simp
    · rw [Bool.not_eq_true] at hui
      rw [hui]
      simp only [Bool.false_eq_true, if_false]
      by_cases hresp : (e.type == "response") = true
      · rw [hresp]
        simp only [if_true]
        rcases hrej with hr | hr
        · rw [hresp] at hr
          exact absurd hr (by simp)
        · match hs : e.success with
          | none => rfl
          | some true => rfl
          | some false =>
            rw [hs] at hr
            exact absurd hr (by simp)
      · rw [Bool.not_eq_true] at hresp
        rw [hresp]
        simp
theorem readUntilAgentEnd_skipAll (pre : List PiLine) (rest : List PiLine) (fin : StreamEnd)
    (h : pre.all PiLine.isSkippable = true) :
    readUntilAgentEnd (pre ++ rest) fin = readUntilAgentEnd rest fin := by
  induction pre with
  | nil => rfl
  | cons l tl ih =>
    rw [List.all_cons, Bool.and_eq_true] at h
    rw [List.cons_append, readUntilAgentEnd_skip l _ fin h.1, ih h.2]

/-! ## The session pool (pi.go, PiPool)

`PiPool.Get` holds the registry lock for its whole body, so concurrent calls
serialize; the model is the resulting sequence of atomic steps. A process is
a pid together with a liveness flag; `StartPi` either succeeds (the `startOk`
parameter) and yields a fresh live process, or fails and registers nothing.
`spawnCount` counts the subprocesses spawned so far.
-/

/-- A pooled subprocess: identity and liveness. -/
structure PiProcessHandle where
  pid : Nat
  alive : Bool
deriving DecidableEq

/-- The pool registry: room ID to process, plus a pid source and a count of
spawned subprocesses. -/
structure PiPoolState where
  processes : List (String × PiProcessHandle)
  nextPid : Nat
  spawnCount : Nat
deriving DecidableEq

/-- Lookup in the registry map. -/
def lookupProc (procs : List (String × PiProcessHandle)) (roomID : String) :
    Option PiProcessHandle :=
  match procs.find? (fun kv => kv.1 == roomID) with
  | some kv => some kv.2
  | none => none

/-- The stale-entry delete followed by `StartPi` (pi.go lines 460-474): on
start failure nothing is registered; on success a fresh live process is
registered and counted. -/
def spawnStep (st : PiPoolState) (roomID : String) (startOk : Bool) :
    PiPoolState × Option PiProcessHandle :=
  let removed := st.processes.filter (fun kv => kv.1 != roomID)
  if startOk then
    let p : PiProcessHandle := { pid := st.nextPid, alive := true }
    ({ processes := (roomID, p) :: removed, nextPid := st.nextPid + 1,
       spawnCount := st.spawnCount + 1 }, some p)
  else
    ({ st with processes := removed }, none)

/-- Embedding of `PiPool.Get` (pi.go lines 451-475): return the registered
live process, otherwise drop the stale entry and start a fresh one, all as
one atomic step (the lock is held across check and create). -/
def PiPool.getStep (st : PiPoolState) (roomID : String) (startOk : Bool) :
    PiPoolState × Option PiProcessHandle :=
  match lookupProc st.processes roomID with
  | some p => if p.alive then (st, some p) else spawnStep st roomID startOk
  | none => spawnStep st roomID startOk

/-- A serialized run of `Get` calls for one room, one `startOk` outcome per
call; collects each call's returned process. -/
def PiPool.runGets (roomID : String) :
    PiPoolState → List Bool → PiPoolState × List (Option PiProcessHandle)
  | st, [] => (st, [])
  | st, ok :: rest =>
    let step := PiPool.getStep st roomID ok
    let run := PiPool.runGets roomID step.1 rest
    (run.1, step.2 :: run.2)

/-- The fresh process registered by a successful spawn. -/
def freshProc (st : PiPoolState) : PiProcessHandle :=
  { pid := st.nextPid, alive := true }

/-- The pool state after a successful spawn for `roomID`. -/
def spawnedState (st : PiPoolState) (roomID : String) : PiPoolState :=
  { processes := (roomID, freshProc st) :: st.processes.filter (fun kv => kv.1 != roomID),
    nextPid := st.nextPid + 1, spawnCount := st.spawnCount + 1 }

/-- The pool state after a failed spawn: only the stale entry is gone. -/
def failedState (st : PiPoolState) (roomID : String) : PiPoolState :=
  { st with processes := st.processes.filter (fun kv => kv.1 != roomID) }

theorem getStep_spec (st : PiPoolState) (roomID : String) (ok : Bool) :
    (∃ p, lookupProc st.processes roomID = some p ∧ p.alive = true ∧
        PiPool.getStep st roomID ok = (st, some p)) ∨
    (ok = true ∧
        PiPool.getStep st roomID ok = (spawnedState st roomID, some (freshProc st))) ∨
    (ok = false ∧ PiPool.getStep st roomID ok = (failedState st roomID, none)) := by
  unfold PiPool.getStep spawnStep
  cases hlook : lookupProc st.processes roomID with
  | some p =>
    by_cases halive : p.alive = true
    · exact Or.inl ⟨p, rfl, halive, by simp [halive]⟩
    · cases ok with
      | true =>
        refine Or.inr (Or.inl ⟨rfl, ?_⟩)
        simp only [Bool.not_eq_true] at halive
        simp [halive, spawnedState, freshProc]
      | false =>
        refine Or.inr (Or.inr ⟨rfl, ?_⟩)
        simp only [Bool.not_eq_true] at halive
        simp [halive, failedState]
  | none =>
    cases ok with
    | true =>
      refine Or.inr (Or.inl ⟨rfl, ?_⟩)
      simp [spawnedState, freshProc]
    | false =>
      refine Or.inr (Or.inr ⟨rfl, ?_⟩)
      simp [failedState]

theorem getStep_live (st : PiPoolState) (roomID : String) (ok : Bool)
    (p : PiProcessHandle) (hlook : lookupProc st.processes roomID = some p)
    (halive : p.alive = true) :
    PiPool.getStep st roomID ok = (st, some p) := by
  rcases getStep_spec st roomID ok with ⟨q, hq, _, heq⟩ | ⟨_, heq⟩ | ⟨_, heq⟩
  · rw [hlook] at hq
    injection hq with hq
    rw [heq, hq]
  · exfalso
    unfold PiPool.getStep at heq
    rw [hlook] at heq
    simp only [halive, if_true] at heq
    have := congrArg (fun q => q.1.nextPid) heq
    simp [spawnedState] at this
  · exfalso
    unfold PiPool.getStep at heq
    rw [hlook] at heq
    simp only [halive, if_true] at heq
    have := congrArg (fun q => q.2) heq
    simp at this

theorem runGets_cons (roomID : String) (st : PiPoolState) (ok : Bool) (rest : List Bool) :
    PiPool.runGets roomID st (ok :: rest) =
      ((PiPool.runGets roomID (PiPool.getStep st roomID ok).1 rest).1,
       (PiPool.getStep st roomID ok).2 ::
         (PiPool.runGets roomID (PiPool.getStep st roomID ok).1 rest).2) := rfl

theorem runGets_live (roomID : String) (p : PiProcessHandle)
    (halive : p.alive = true) :
    ∀ flags st, lookupProc st.processes roomID = some p →
      PiPool.runGets roomID st flags = (st, flags.map fun _ => some p) := by
  intro flags
  induction flags with
  | nil => intro st _; rfl
  | cons ok rest ih =>
    intro st hlook
    rw [runGets_cons, getStep_live st roomID ok p hlook halive]
    simp only
    rw [ih st hlook]
    rfl

theorem lookupProc_insert (procs : List (String × PiProcessHandle))
    (roomID : String) (p : PiProcessHandle) :
    lookupProc ((roomID, p) :: procs) roomID = some p := by
  unfold lookupProc
  simp [List.find?]

theorem runGets_spawnCount (roomID : String) :
    ∀ flags st, (PiPool.runGets roomID st flags).1.spawnCount ≤ st.spawnCount + 1 := by
  intro flags
  induction flags with
  | nil => intro st; simp [PiPool.runGets]
  | cons ok rest ih =>
    intro st
    rw [runGets_cons]
    simp only
    rcases getStep_spec st roomID ok with ⟨p, _, halive, heq⟩ | ⟨_, heq⟩ | ⟨_, heq⟩
    · rw [heq]
      exact ih st
    · rw [heq]
      simp only
      rw [runGets_live roomID (freshProc st) rfl rest _
        (lookupProc_insert _ _ _)]
      simp [spawnedState]
    · rw [heq]
      simp only
      have := ih (failedState st roomID)
      simpa [failedState] using this

/-! ## Scheduler tick (heartbeat.go lines 94-205)

One room's slice of `tickAll` and `tick`: filesystem reads and prompt
outcomes are parameters. `fileContent` is the raw `HEARTBEAT.md` content
when the file exists; times are naturals (seconds, say), `last` being the
room's `lastBeat` entry (zero when absent, as for Go's zero `time.Time`).
-/

/-- What one `tick` call did: which external interactions happened and what,
if anything, was handed to `sendReply`. -/
structure TickResult where
  acquired : Bool
  prompted : Bool
  removedSession : Bool
  delivered : Option (List Char)
deriving DecidableEq

/-- Embedding of `HeartbeatScheduler.tick` (heartbeat.go lines 157-205):
trim the task-file content, skip when it is effectively empty and no trigger
is pending, otherwise acquire the session (`getOk` is `pool.Get`'s outcome),
prompt it (`promptReply` is `PromptNoTouch`'s outcome, `none` for an error)
and decide delivery. -/
def HeartbeatScheduler.tick (fileContent : Option (List Char)) (triggerContext : List Char)
    (getOk : Bool) (promptReply : Option (List Char)) : TickResult :=
  let content := trimSpace (fileContent.getD [])
  if isEffectivelyEmpty content && triggerContext.isEmpty then
    { acquired := false, prompted := false, removedSession := false, delivered := none }
  else if !getOk then
    { acquired := true, prompted := false, removedSession := false, delivered := none }
  else
    match promptReply with
    | none => { acquired := true, prompted := true, removedSession := true, delivered := none }
    | some reply =>
      { acquired := true, prompted := true, removedSession := false,
        delivered := HeartbeatScheduler.deliverDecision reply }

/-- One room's slice of `HeartbeatScheduler.tickAll` (heartbeat.go lines
94-109): fire `tick` when a trigger is pending or the interval has elapsed,
and in that case set the room's `lastBeat` to `now`; the second component is
the room's `lastBeat` after the step. -/
def HeartbeatScheduler.tickAllRoom (interval last now : Nat)
    (fileContent : Option (List Char)) (triggerContext : List Char)
    (getOk : Bool) (promptReply : Option (List Char)) : TickResult × Nat :=
  if !triggerContext.isEmpty || decide (interval ≤ now - last) then
    (HeartbeatScheduler.tick fileContent triggerContext getOk promptReply, now)
  else
    ({ acquired := false, prompted := false, removedSession := false, delivered := none }, last)

/-! ## Prompt calls and the idle timestamp (pi.go lines 167-233, 558-575)

`PiProcess` state is its liveness and `lastUse`; a prompt call's I/O
behaviour is a parameter: the stdin write can fail, otherwise the read loop
returns a result. `Prompt` stamps `lastUse := now` before anything else;
`PromptNoTouch` is the same body without the stamp.
-/

/-- The mutable state of one `PiProcess` that prompt calls can touch. -/
structure PiProcessState where
  alive : Bool
  lastUse : Nat
deriving DecidableEq

/-- Outcome of the stdin write and the following read, supplied by the
environment: the write fails, or the read loop finishes with `r`. -/
inductive PromptEffect where
  | sendFail
  | result (r : Except String (List Char))

/-- The shared body of both prompt variants after the optional timestamp
update: liveness check, stdin write, then the read loop's outcome. -/
def promptBody (st : PiProcessState) (io : PromptEffect) :
    PiProcessState × Except String (List Char) :=
  if !st.alive then (st, .error "pi process is not alive")
  else
    match io with
    | .sendFail => (st, .error "writing to pi stdin")
    | .result r => (st, r)

/-- Embedding of `PiProcess.Prompt` (pi.go lines 167-182): stamp
`lastUse := now`, then run the shared body. -/
def PiProcess.promptStep (st : PiProcessState) (now : Nat) (io : PromptEffect) :
    PiProcessState × Except String (List Char) :=
  promptBody { st with lastUse := now } io

/-- Embedding of `PiProcess.PromptNoTouch` (pi.go lines 186-199): the same
body with no timestamp update. -/
def PiProcess.promptNoTouchStep (st : PiProcessState) (io : PromptEffect) :
    PiProcessState × Except String (List Char) :=
  promptBody st io

/-- A run of background (scheduler/trigger) deliveries: each one is a
`PromptNoTouch` call. -/
def runNoTouch : PiProcessState → List PromptEffect → PiProcessState
  | st, [] => st
  | st, io :: rest => runNoTouch (PiProcess.promptNoTouchStep st io).1 rest

/-- The per-process reap condition of `PiPool.reapIdle` (pi.go lines
558-575): dead, or idle longer than the timeout. -/
def reapIdleDecision (idleTimeout now : Nat) (st : PiProcessState) : Bool :=
  !st.alive || decide (now - st.lastUse > idleTimeout)

theorem promptBody_state (st : PiProcessState) (io : PromptEffect) :
    (promptBody st io).1 = st := by
  unfold promptBody
  by_cases h : st.alive = true
  · simp only [h, Bool.not_true, Bool.false_eq_true, if_false]
    cases io <;> rfl
  · rw [Bool.not_eq_true] at h
    simp [h]

theorem runNoTouch_state (st : PiProcessState) (ios : List PromptEffect) :
    runNoTouch st ios = st := by
  induction ios generalizing st with
  | nil => rfl
  | cons io rest ih =>
    unfold runNoTouch
    rw [show (PiProcess.promptNoTouchStep st io).1 = st from promptBody_state st io]
    exact ih st

/-! ## Claim theorems -/

/-- C4 counterexample: the reply consisting of the sentinel token followed by
50 further non-whitespace characters contains the token, yet both the
scheduler and the trigger path deliver it rather than suppress it. -/
theorem C4_counterexample :
    (heartbeatToken <:+: (heartbeatToken ++ List.replicate 50 'x')) ∧
    HeartbeatScheduler.deliverDecision (heartbeatToken ++ List.replicate 50 'x') =
      some (heartbeatToken ++ List.replicate 50 'x') ∧
    TriggerPipeManager.deliverDecision (heartbeatToken ++ List.replicate 50 'x') =
      some (heartbeatToken ++ List.replicate 50 'x') := by
  decide

/-- C4 (amended): a scheduler or trigger reply that contains the sentinel
token HEARTBEAT_OK is suppressed entirely — never delivered by either path —
provided that, after stripping the token and its bold-marked form, fewer
than 50 non-whitespace characters remain. -/
theorem C4_sentinel_suppressed (reply : List Char)
    (htok : heartbeatToken <:+: reply)
    (hsmall : nonWS (cleanedResponse reply) < 50) :
    HeartbeatScheduler.deliverDecision reply = none ∧
    TriggerPipeManager.deliverDecision reply = none := by
  have hne : reply ≠ [] := by
    intro h
    subst h
    rcases htok with ⟨pre, post, hsplit⟩
    have := congrArg List.length hsplit
    simp [heartbeatToken] at this
  have hc : containsHeartbeatOK reply = true := (containsHeartbeatOK_iff reply hne).mpr hsmall
  constructor
  · unfold HeartbeatScheduler.deliverDecision
    rw [hc]
    simp
  · unfold TriggerPipeManager.deliverDecision
    rw [hc]
    simp

/-- C4 witness: the reply that is exactly the sentinel token satisfies both
hypotheses and is suppressed on both paths. -/
theorem C4_sentinel_suppressed_witness :
    HeartbeatScheduler.deliverDecision heartbeatToken = none ∧
    TriggerPipeManager.deliverDecision heartbeatToken = none :=
  C4_sentinel_suppressed heartbeatToken (by decide) (by decide)

/-- C5: a reply equal to exactly the sentinel token is suppressed
(`containsHeartbeatOK` is true), and a reply consisting of the token plus at
least 50 non-whitespace characters of other content — content free of
further token occurrences — is delivered in full by both paths
(`containsHeartbeatOK` is false). -/
theorem C5_sentinel_threshold :
    (containsHeartbeatOK heartbeatToken = true ∧
     HeartbeatScheduler.deliverDecision heartbeatToken = none) ∧
    ∀ s : List Char, ¬ (heartbeatToken <:+: s) →
      ¬ (heartbeatTokenBold <:+: (heartbeatToken ++ s)) →
      50 ≤ nonWS s →
      containsHeartbeatOK (heartbeatToken ++ s) = false ∧
      HeartbeatScheduler.deliverDecision (heartbeatToken ++ s) =
        some (heartbeatToken ++ s) ∧
      TriggerPipeManager.deliverDecision (heartbeatToken ++ s) =
        some (heartbeatToken ++ s) := by
  refine ⟨⟨by decide, by decide⟩, ?_⟩
  intro s hs hbold hbig
  have hne : heartbeatToken ++ s ≠ [] := by
    intro h
    rcases List.append_eq_nil.mp h with ⟨h1, _⟩
    exact absurd h1 (by decide)
  have hclean : cleanedResponse (heartbeatToken ++ s) = s := by
    unfold cleanedResponse
    rw [removeAll_of_not_occurs _ _ hbold,
      removeAll_append_self _ _ (by decide), removeAll_of_not_occurs _ _ hs]
  have hfalse : containsHeartbeatOK (heartbeatToken ++ s) = false := by
    rw [Bool.eq_false_iff]
    intro htrue
    have := (containsHeartbeatOK_iff _ hne).mp htrue
    rw [hclean] at this
    omega
  refine ⟨hfalse, ?_, ?_⟩
  · unfold HeartbeatScheduler.deliverDecision
    rw [hfalse]
    simp [hne]
  · unfold TriggerPipeManager.deliverDecision
    rw [hfalse]
    simp [hne]

/-- C5 witness: 50 letters `x` after the token satisfy the hypotheses, and
that reply is delivered in full. -/
theorem C5_sentinel_threshold_witness :
    containsHeartbeatOK (heartbeatToken ++ List.replicate 50 'x') = false ∧
    HeartbeatScheduler.deliverDecision (heartbeatToken ++ List.replicate 50 'x') =
      some (heartbeatToken ++ List.replicate 50 'x') ∧
    TriggerPipeManager.deliverDecision (heartbeatToken ++ List.replicate 50 'x') =
      some (heartbeatToken ++ List.replicate 50 'x') :=
  C5_sentinel_threshold.2 (List.replicate 50 'x') (by decide) (by decide) (by decide)

/-- C9: `containsHeartbeatOK` flags every non-empty reply with fewer than 50
non-whitespace characters left after stripping the sentinel token; in
particular a short genuine reply that does not contain the token at all is
also suppressed by both the trigger and the scheduler path. -/
theorem C9_short_reply_suppressed :
    (∀ r : List Char, r ≠ [] → nonWS (cleanedResponse r) < 50 →
      containsHeartbeatOK r = true) ∧
    (∀ r : List Char, r ≠ [] → ¬ (heartbeatToken <:+: r) → nonWS r < 50 →
      containsHeartbeatOK r = true ∧
      TriggerPipeManager.deliverDecision r = none ∧
      HeartbeatScheduler.deliverDecision r = none) := by
  have base : ∀ r : List Char, r ≠ [] → nonWS (cleanedResponse r) < 50 →
      containsHeartbeatOK r = true :=
    fun r hne hsmall => (containsHeartbeatOK_iff r hne).mpr hsmall
  refine ⟨base, fun r hne htok hsmall => ?_⟩
  have hclean : cleanedResponse r = r := cleanedResponse_of_token_free r htok
  have hc : containsHeartbeatOK r = true := by
    refine base r hne ?_
    rw [hclean]
    exact hsmall
  refine ⟨hc, ?_, ?_⟩
  · unfold TriggerPipeManager.deliverDecision
    rw [hc]
    simp
  · unfold HeartbeatScheduler.deliverDecision
    rw [hc]
    simp

/-- C9 witness: the genuine nine-character reply is suppressed although it
never mentions the sentinel. -/
theorem C9_short_reply_suppressed_witness :
    containsHeartbeatOK "ok, done.".toList = true ∧
    TriggerPipeManager.deliverDecision "ok, done.".toList = none ∧
    HeartbeatScheduler.deliverDecision "ok, done.".toList = none :=
  C9_short_reply_suppressed.2 "ok, done.".toList (by decide) (by decide) (by decide)

/-- C6: `isEffectivelyEmpty` holds exactly when every line of the content,
after trimming, is blank, a markdown header, or a bare or
whitespace-followed bullet marker; in particular a file of a heading, a
blank line and a bare `- ` is effectively empty, while `- [ ] call Bob` is
not. -/
theorem C6_effectively_empty_iff :
    (∀ content : List Char, isEffectivelyEmpty content = true ↔
      ∀ line ∈ splitLines content, specStructuralLine line) ∧
    isEffectivelyEmpty "# heading\n\n- ".toList = true ∧
    isEffectivelyEmpty "- [ ] call Bob".toList = false := by
  refine ⟨?_, by decide, by decide⟩
  intro content
  by_cases hnil : content = []
  · subst hnil
    constructor
    · intro _ line hline
      simp only [splitLines, List.mem_singleton] at hline
      subst hline
      exact Or.inl (by decide)
    · intro _
      decide
  · unfold isEffectivelyEmpty
    rw [if_neg hnil, emptyLoop_iff]
    constructor
    · intro h line hline
      exact (structuralLine_iff_spec line).mp (h line hline)
    · intro h line hline
      exact (structuralLine_iff_spec line).mpr (h line hline)

/-- C2 counterexample: an assistant message with two text blocks `a` and `b`
makes the code return `a`, a newline, `b`, not the in-order concatenation
`ab` that the claim describes. -/
theorem C2_counterexample :
    extractLastAssistantText
        [{ role := "assistant",
           content := .blocks [{ type := "text", text := "a".toList },
                               { type := "text", text := "b".toList }] }] =
      "a\nb".toList ∧
    specExtractLastAssistantText
        [{ role := "assistant",
           content := .blocks [{ type := "text", text := "a".toList },
                               { type := "text", text := "b".toList }] }] =
      "ab".toList ∧
    "a\nb".toList ≠ "ab".toList := by
  decide

/-- C2 (amended): reply extraction scans the transcript from the end
backward, skips non-assistant entries and assistant entries with no
extractable text, and returns the text of the most recent assistant entry
with non-empty textual content, where a plain string is returned as is and
the non-empty text-typed blocks of a block sequence are joined in order
with a newline between consecutive blocks; a transcript whose last
assistant message is tool-use-only but whose second-to-last assistant
message has text yields that earlier text. -/
theorem C2_extract_amended :
    (∀ ms, extractLastAssistantText ms = amendedExtractLastAssistantText ms) ∧
    extractLastAssistantText
        [{ role := "user", content := .str "hi".toList },
         { role := "assistant", content := .str "use the hammer".toList },
         { role := "assistant",
           content := .blocks [{ type := "tool_use", text := [] }] }] =
      "use the hammer".toList := by
  refine ⟨?_, by decide⟩
  intro ms
  unfold extractLastAssistantText amendedExtractLastAssistantText
  exact extractLoop_eq_amended ms.reverse

/-- C3: with only skippable lines (empty, malformed, or events that are
neither terminal nor a rejection) before it, a terminal `agent_end` event
makes the read loop return the extracted text with no error; a rejecting
command-result event makes it fail with the embedded error; and a stream
made only of skippable lines fails with the protocol-closed error at
end-of-file, or with the scanner's error. -/
theorem C3_read_loop_outcomes (pre rest : List PiLine) (e : rpcEvent) (fin : StreamEnd)
    (hpre : pre.all PiLine.isSkippable = true) :
    (e.type = "agent_end" →
      readUntilAgentEnd (pre ++ PiLine.event e :: rest) fin =
        .ok (extractLastAssistantText e.messages)) ∧
    (e.type = "response" → e.success = some false →
      readUntilAgentEnd (pre ++ PiLine.event e :: rest) fin = .error (rejectionError e)) ∧
    (∀ lines : List PiLine, lines.all PiLine.isSkippable = true →
      readUntilAgentEnd lines .eof = .error "pi process closed stdout (EOF)" ∧
      ∀ m, readUntilAgentEnd lines (.ioError m) = .error ("reading pi stdout: " ++ m)) := by
  refine ⟨?_, ?_, ?_⟩
  · intro hterm
    rw [readUntilAgentEnd_skipAll pre _ fin hpre]
    conv_lhs => rw [readUntilAgentEnd]
    rw [show (e.type == "agent_end") = true by simp [hterm]]
    simp
  · intro hresp hsucc
    rw [readUntilAgentEnd_skipAll pre _ fin hpre]
    conv_lhs => rw [readUntilAgentEnd]
    rw [show (e.type == "agent_end") = false by simp [hresp]]
    simp only [Bool.false_eq_true, if_false]
    rw [show (e.type == "extension_ui_request") = false by simp [hresp]]
    simp only [Bool.false_eq_true, if_false]
    rw [show (e.type == "response") = true by simp [hresp]]
    simp only [if_true]
    rw [hsucc]
  · intro lines hlines
    have h1 : ∀ fin2, readUntilAgentEnd lines fin2 = readUntilAgentEnd [] fin2 := by
      intro fin2
      have := readUntilAgentEnd_skipAll lines [] fin2 hlines
      rwa [List.append_nil] at this
    exact ⟨h1 .eof, fun m => h1 (.ioError m)⟩

/-- C3 witness: two skippable lines then a terminal event with one assistant
message yield that message's text. -/
theorem C3_read_loop_outcomes_witness :
    readUntilAgentEnd
        ([PiLine.empty, PiLine.malformed] ++
          PiLine.event { type := "agent_end", command := "", success := none, error := "",
                         messages := [{ role := "assistant", content := .str "ok".toList }],
                         method := "" } :: []) .eof =
      .ok "ok".toList :=
  (C3_read_loop_outcomes [PiLine.empty, PiLine.malformed] []
    { type := "agent_end", command := "", success := none, error := "",
      messages := [{ role := "assistant", content := .str "ok".toList }], method := "" }
    .eof (by decide)).1 rfl

/-- C1: the pool's serialized `Get` steps for one key return the registered
live process and leave the registry unchanged whenever one exists, every
returned process is registered and live afterwards, and any run of `Get`
calls for the key spawns at most one subprocess. -/
theorem C1_single_live_session (roomID : String) (st : PiPoolState) (flags : List Bool) :
    (∀ p, lookupProc st.processes roomID = some p → p.alive = true →
      PiPool.runGets roomID st flags = (st, flags.map fun _ => some p)) ∧
    (∀ ok st2 p, PiPool.getStep st roomID ok = (st2, some p) →
      lookupProc st2.processes roomID = some p ∧ p.alive = true) ∧
    (PiPool.runGets roomID st flags).1.spawnCount ≤ st.spawnCount + 1 := by
  refine ⟨?_, ?_, runGets_spawnCount roomID flags st⟩
  · intro p hlook halive
    exact runGets_live roomID p halive flags st hlook
  · intro ok st2 p hstep
    rcases getStep_spec st roomID ok with ⟨q, hq, halive, heq⟩ | ⟨_, heq⟩ | ⟨_, heq⟩
    · rw [heq] at hstep
      injection hstep with h1 h2
      injection h2 with h2
      subst h1
      subst h2
      exact ⟨hq, halive⟩
    · rw [heq] at hstep
      injection hstep with h1 h2
      injection h2 with h2
      subst h1
      subst h2
      exact ⟨lookupProc_insert _ _ _, rfl⟩
    · rw [heq] at hstep
      injection hstep with h1 h2
      exact absurd h2 (by simp)

/-- C1 witness: from an empty pool, three consecutive successful `Get` calls
spawn exactly one subprocess and all return it. -/
theorem C1_single_live_session_witness :
    (PiPool.runGets "room" { processes := [], nextPid := 0, spawnCount := 0 }
      [true, true, true]).1.spawnCount ≤ 0 + 1 :=
  (C1_single_live_session "room" { processes := [], nextPid := 0, spawnCount := 0 }
    [true, true, true]).2.2

/-- C7 counterexample: with the task file absent and no pending trigger, a
due tick performs no subprocess interaction, yet the room's last-fire
timestamp is set to the tick time (5) instead of staying at its previous
value (0) — the claim's "records no state change" fails on the code. -/
theorem C7_counterexample :
    (HeartbeatScheduler.tickAllRoom 1 0 5 none [] true none).1.acquired = false ∧
    (HeartbeatScheduler.tickAllRoom 1 0 5 none [] true none).1.prompted = false ∧
    (HeartbeatScheduler.tickAllRoom 1 0 5 none [] true none).1.delivered = none ∧
    (HeartbeatScheduler.tickAllRoom 1 0 5 none [] true none).2 = 5 ∧
    (5 : Nat) ≠ 0 := by
  decide

/-- C7 (amended): a tick on a key whose task file is absent or effectively
empty and which has no pending trigger never acquires or prompts the agent
and delivers nothing; however, when the tick fired because the interval was
due, the key's last-fire timestamp is advanced to the tick time, and it is
left unchanged only when the tick did not fire. -/
theorem C7_empty_tick_no_interaction (interval last now : Nat)
    (fileContent : Option (List Char)) (getOk : Bool) (promptReply : Option (List Char))
    (hempty : isEffectivelyEmpty (trimSpace (fileContent.getD [])) = true) :
    (HeartbeatScheduler.tickAllRoom interval last now fileContent [] getOk promptReply).1 =
      { acquired := false, prompted := false, removedSession := false, delivered := none } ∧
    (HeartbeatScheduler.tickAllRoom interval last now fileContent [] getOk promptReply).2 =
      (if interval ≤ now - last then now else last) := by
  unfold HeartbeatScheduler.tickAllRoom
  have htick : HeartbeatScheduler.tick fileContent [] getOk promptReply =
      { acquired := false, prompted := false, removedSession := false, delivered := none } := by
    unfold HeartbeatScheduler.tick
    simp [hempty]
  by_cases hdue : interval ≤ now - last
  · rw [if_pos (by simp [hdue]), if_pos hdue, htick]
    exact ⟨rfl, rfl⟩
  · rw [if_neg (by simp [hdue]), if_neg hdue]
    exact ⟨rfl, rfl⟩

/-- C7 witness: the amended statement at the counterexample's input. -/
theorem C7_empty_tick_no_interaction_witness :
    (HeartbeatScheduler.tickAllRoom 1 0 5 none [] true none).1 =
      { acquired := false, prompted := false, removedSession := false, delivered := none } ∧
    (HeartbeatScheduler.tickAllRoom 1 0 5 none [] true none).2 =
      (if (1 : Nat) ≤ 5 - 0 then 5 else 0) :=
  C7_empty_tick_no_interaction 1 0 5 none true none (by decide)

/-- C8: a `PromptNoTouch` call leaves the process state — in particular
`lastUse` — unchanged for every outcome, while `Prompt` sets `lastUse` to
the call time; hence after any run of background no-touch deliveries the
idle timestamp is what it was, and a process whose last user prompt is
older than the idle timeout is reaped. -/
theorem C8_no_touch_keeps_idle_timestamp (st : PiProcessState) :
    (∀ io, (PiProcess.promptNoTouchStep st io).1 = st) ∧
    (∀ now io, (PiProcess.promptStep st now io).1.lastUse = now) ∧
    (∀ ios idleTimeout now, idleTimeout < now - st.lastUse →
      reapIdleDecision idleTimeout now (runNoTouch st ios) = true) := by
  refine ⟨fun io => promptBody_state st io, ?_, ?_⟩
  · intro now io
    unfold PiProcess.promptStep
    rw [promptBody_state]
  · intro ios idleTimeout now hidle
    rw [runNoTouch_state]
    unfold reapIdleDecision
    have : decide (now - st.lastUse > idleTimeout) = true := by
      simp only [decide_eq_true_eq]
      omega
    rw [this]
    simp

/-- C8 witness: a process last used at 0 stays reapable at time 100 with
timeout 10 after a failing background delivery. -/
theorem C8_no_touch_keeps_idle_timestamp_witness :
    reapIdleDecision 10 100
      (runNoTouch { alive := true, lastUse := 0 } [PromptEffect.sendFail]) = true :=
  (C8_no_touch_keeps_idle_timestamp { alive := true, lastUse := 0 }).2.2
    [PromptEffect.sendFail] 10 100 (by decide)

/-- C10: `Prompt` stamps `lastUse` with the call time before the liveness
check, so the timestamp advances even when the call fails at once because
the process is dead, and for every other outcome as well. -/
theorem C10_prompt_always_touches (st : PiProcessState) (now : Nat) (io : PromptEffect) :
    (PiProcess.promptStep st now io).1.lastUse = now ∧
    (st.alive = false →
      (PiProcess.promptStep st now io).2 = .error "pi process is not alive") := by
  constructor
  · unfold PiProcess.promptStep
    rw [promptBody_state]
  · intro hdead
    unfold PiProcess.promptStep promptBody
    rw [show ({ st with lastUse := now } : PiProcessState).alive = false from hdead]
    simp

/-- C10 witness: a dead process prompted at time 7 gets `lastUse = 7` and
the not-alive error. -/
theorem C10_prompt_always_touches_witness :
    (PiProcess.promptStep { alive := false, lastUse := 3 } 7 PromptEffect.sendFail).1.lastUse = 7 ∧
    (PiProcess.promptStep { alive := false, lastUse := 3 } 7 PromptEffect.sendFail).2 =
      .error "pi process is not alive" :=
  ⟨(C10_prompt_always_touches { alive := false, lastUse := 3 } 7 PromptEffect.sendFail).1,
   (C10_prompt_always_touches { alive := false, lastUse := 3 } 7 PromptEffect.sendFail).2 rfl⟩
